import Mathlib

/-
Verification of the sciencedirect-rss2paper extraction pipeline.

The Python sources are shallowly embedded: parsed XML documents become an
explicit element tree (tag, text, children with tails, mirroring the
ElementTree and lxml data model), parsed HTML documents become a node tree,
and the XML/HTML parsers and the network are abstracted as oracle
parameters (a parser is a function String to Option tree; a channel is a
function from the request data to an optional response).  Python strings
are Lean Strings; len, strip, rstrip, slicing and "sep".join are modelled
by executable helpers below.
-/

/-- Python len(s): number of characters. -/
def pyLen (s : String) : Nat := s.data.length

/-- Python s.strip(): drop leading and trailing whitespace. -/
def pyStrip (s : String) : String :=
  ⟨((s.data.dropWhile Char.isWhitespace).reverse.dropWhile Char.isWhitespace).reverse⟩

/-- Python s[:n]: first n characters. -/
def pyTake (s : String) (n : Nat) : String := ⟨s.data.take n⟩

/-- Python s.rstrip(chars): drop trailing characters drawn from chars. -/
def pyRstrip (s : String) (chars : List Char) : String :=
  ⟨(s.data.reverse.dropWhile (fun c => chars.contains c)).reverse⟩

/-- Python "sep".join(parts). -/
def joinSep (sep : String) : List String → String
  | [] => ""
  | [s] => s
  | s :: rest => s ++ sep ++ joinSep sep rest

/-- One step of collapsing whitespace runs; the Bool says whether the
previous character was part of a whitespace run. -/
def collapseWSAux : List Char → Bool → List Char
  | [], _ => []
  | c :: rest, prevWS =>
    if c.isWhitespace then
      if prevWS then collapseWSAux rest true
      else ' ' :: collapseWSAux rest true
    else c :: collapseWSAux rest false

/-- Python re.sub(r"\s+", " ", s).strip(): collapse whitespace runs to a
single space, then strip.  Also models XPath normalize-space. -/
def normWS (s : String) : String := pyStrip ⟨collapseWSAux s.data false⟩

/-- Boolean membership of a string in a list of strings (Python "in"). -/
def memStr (a : String) : List String → Bool
  | [] => false
  | b :: rest => a == b || memStr a rest

/-- Python "x or y" on optional strings: keep x when it is a non-empty
string, otherwise fall through to y. -/
def orStrOpt (a b : Option String) : Option String :=
  match a with
  | some s => if s == "" then b else some s
  | none => b

/-- Truthiness of an optional string: some non-empty string. -/
def optNonempty : Option String → Option String
  | some s => if s == "" then none else some s
  | none => none

/-- Whether the last character of s is one of cs. -/
def endsWithAny (s : String) (cs : List Char) : Bool :=
  match s.data.getLast? with
  | some c => cs.contains c
  | none => false

/-- Keep-first deduplication of a list of strings, with an explicit list of
strings already seen. -/
def dedupKFAux : List String → List String → List String
  | [], _ => []
  | t :: rest, seen =>
    if memStr t seen then dedupKFAux rest seen else t :: dedupKFAux rest (t :: seen)

/-- Keep-first deduplication of a list of strings. -/
def dedupKeepFirst (l : List String) : List String := dedupKFAux l []

/- ===== content_extractor.py : data model ===== -/

/-- Result record ExtractedContent of content_extractor.py; source is
"api" or "crawl". -/
structure ExtractedContent where
  abstract : String
  full_text : String
  source : String
deriving DecidableEq, Repr

mutual
/-- An ElementTree / lxml element: a (possibly namespace-qualified) tag,
the text before the first child, and the children, each carrying the tail
text that follows it. -/
inductive XElement : Type where
  | mk (tag : String) (text : String) (children : XChildren)
/-- The children of an element; each child carries its tail text. -/
inductive XChildren : Type where
  | nil
  | cons (child : XElement) (tail : String) (rest : XChildren)
end

/-- The tag of an element. -/
def XElement.tag : XElement → String
  | .mk t _ _ => t

/-- The text of an element. -/
def XElement.text : XElement → String
  | .mk _ x _ => x

/-- The children of an element. -/
def XElement.children : XElement → XChildren
  | .mk _ _ c => c

/-- Everything after the first closing brace of a tag. -/
def afterBrace : List Char → List Char
  | [] => []
  | c :: rest => if c == '\x7d' then rest else afterBrace rest

/-- Whether a closing brace occurs in the characters. -/
def hasBrace : List Char → Bool
  | [] => false
  | c :: rest => c == '\x7d' || hasBrace rest

/-- content_extractor._strip_ns: drop a namespace-in-braces marker from a
tag, keeping what follows the first closing brace. -/
def stripNS (tag : String) : String :=
  if hasBrace tag.data then ⟨afterBrace tag.data⟩ else tag

mutual
/-- content_extractor._collect_text: the element text, then recursively
each child followed by its tail, skipping falsy (empty) pieces. -/
def collectText : XElement → List String
  | .mk _ tx cs => (if tx == "" then [] else [tx]) ++ collectChildren cs
/-- Text pieces contributed by a list of children. -/
def collectChildren : XChildren → List String
  | .nil => []
  | .cons c tl rest =>
    collectText c ++ (if tl == "" then [] else [tl]) ++ collectChildren rest
end

mutual
/-- ElementTree Element.iter(): the element itself, then all descendants
in document order. -/
def iterElems : XElement → List XElement
  | .mk t x cs => .mk t x cs :: iterChildren cs
/-- Document-order traversal of a list of children. -/
def iterChildren : XChildren → List XElement
  | .nil => []
  | .cons c _ rest => iterElems c ++ iterChildren rest
end

mutual
/-- lxml Element.itertext() joined into one string: the element text and,
for each child, its itertext followed by its tail. -/
def itertext : XElement → String
  | .mk _ tx cs => tx ++ itertextChildren cs
/-- itertext of a list of children. -/
def itertextChildren : XChildren → String
  | .nil => ""
  | .cons c tl rest => itertext c ++ tl ++ itertextChildren rest
end

/- ===== content_extractor.py : etree strategy ===== -/

/-- find_all_with_tag of extract_from_api_xml: all elements (self
included) whose local name matches. -/
def find_all_with_tag (parent : XElement) (local_name : String) : List XElement :=
  (iterElems parent).filter (fun el => stripNS el.tag == local_name)

/-- text_of of extract_from_api_xml: " ".join of the collected text,
stripped. -/
def text_of (el : XElement) : String := pyStrip (joinSep " " (collectText el))

/-- The abstract-candidate filter of both extractors: non-empty and longer
than 20 characters. -/
def qualAbs (t : String) : Bool := t != "" && decide (20 < pyLen t)

/-- One loop step of the abstract-candidate collection: append t when it
is non-empty, longer than 20 characters and not already kept. -/
def addAbstractCandidate (parts : List String) (t : String) : List String :=
  if qualAbs t && !(memStr t parts) then parts ++ [t] else parts

/-- One loop step of a body-candidate collection: append t when it is
non-empty and longer than minLen characters (no deduplication). -/
def appendIfLong (minLen : Nat) (parts : List String) (t : String) : List String :=
  if t != "" && decide (minLen < pyLen t) then parts ++ [t] else parts

/-- Abstract candidates of extract_from_api_xml: a pass over all elements
locally named description, then a pass over all elements locally named
abstract, keeping qualifying texts with keep-first deduplication, finally
capped at the first 3. -/
def xmlAbstractParts (root : XElement) : List String :=
  let p1 := (find_all_with_tag root "description").foldl
    (fun acc el => addAbstractCandidate acc (text_of el)) []
  let p2 := (find_all_with_tag root "abstract").foldl
    (fun acc el => addAbstractCandidate acc (text_of el)) p1
  if p2 != [] then p2.take 3 else p2

/-- Body candidates of extract_from_api_xml: under the first element
locally named body, texts of section, then para, then p elements longer
than 30; if that yields nothing, texts of all para elements of the whole
document longer than 50. -/
def xmlBodyParts (root : XElement) : List String :=
  let bp :=
    match (iterElems root).find? (fun el => stripNS el.tag == "body") with
    | none => []
    | some b =>
      ["section", "para", "p"].foldl
        (fun acc tg => (find_all_with_tag b tg).foldl
          (fun a el => appendIfLong 30 a (text_of el)) acc) []
  if bp == [] then
    (find_all_with_tag root "para").foldl
      (fun a el => appendIfLong 50 a (text_of el)) []
  else bp

/-- The joined abstract of extract_from_api_xml before promotion. -/
def xmlAbstractJoined (root : XElement) : String :=
  if xmlAbstractParts root != [] then joinSep "\n\n" (xmlAbstractParts root) else ""

/-- The joined body text of extract_from_api_xml before promotion. -/
def xmlBodyJoined (root : XElement) : String :=
  if xmlBodyParts root != [] then joinSep "\n\n" (xmlBodyParts root) else ""

/-- extract_from_api_xml on an already parsed tree: join the candidate
lists, then promote a long abstract (more than 200 characters) to the
empty full text, truncating the abstract field to 500 characters plus an
ellipsis when it exceeded 500. -/
def extract_xml_tree (root : XElement) : ExtractedContent :=
  if xmlBodyJoined root = "" ∧ 200 < pyLen (xmlAbstractJoined root) then
    { abstract :=
        if 500 < pyLen (xmlAbstractJoined root) then
          pyTake (xmlAbstractJoined root) 500 ++ "..."
        else xmlAbstractJoined root
      full_text := xmlAbstractJoined root
      source := "api" }
  else
    { abstract := xmlAbstractJoined root
      full_text := xmlBodyJoined root
      source := "api" }

/-- content_extractor.extract_from_api_xml, with ET.fromstring abstracted
as a parsing oracle: a parse failure yields the empty result with source
"api". -/
def extract_from_api_xml (parseET : String → Option XElement) (raw_body : String) :
    ExtractedContent :=
  match parseET raw_body with
  | none => { abstract := "", full_text := "", source := "api" }
  | some root => extract_xml_tree root

/- ===== content_extractor.py : lxml strategy ===== -/

/-- The elements selected by the XPath query for a given local name with
string-length(normalize-space(.)) greater than 20: all elements in
document order whose local name matches and whose normalized string value
is longer than 20 characters. -/
def xpathNameLong (root : XElement) (nm : String) : List XElement :=
  (iterElems root).filter
    (fun el => stripNS el.tag == nm && decide (20 < pyLen (normWS (itertext el))))

/-- The text the lxml strategy computes for a selected element: the
element text prepended to the full itertext (so the element text is
counted twice), whitespace-normalized. -/
def lxmlText (el : XElement) : String := normWS (el.text ++ itertext el)

/-- Strict descendants of an element in document order (XPath .//*). -/
def descElemsX (el : XElement) : List XElement := iterChildren el.children

/-- Abstract candidates of extract_from_api_xml_lxml: a description pass
then an abstract pass over the XPath-selected elements, keeping
qualifying lxml texts with keep-first deduplication, capped at the first
3. -/
def lxmlAbstractParts (root : XElement) : List String :=
  let p1 := (xpathNameLong root "description").foldl
    (fun acc el => addAbstractCandidate acc (lxmlText el)) []
  let p2 := (xpathNameLong root "abstract").foldl
    (fun acc el => addAbstractCandidate acc (lxmlText el)) p1
  p2.take 3

/-- Body candidates of extract_from_api_xml_lxml: under the first element
locally named body, lxml texts of descendant para or section elements
longer than 30; if that yields nothing, lxml texts of all para elements
longer than 50. -/
def lxmlBodyParts (root : XElement) : List String :=
  let bp :=
    match ((iterElems root).filter (fun el => stripNS el.tag == "body")) with
    | [] => []
    | b :: _ =>
      ((descElemsX b).filter
        (fun el => stripNS el.tag == "para" || stripNS el.tag == "section")).foldl
        (fun a el => appendIfLong 30 a (lxmlText el)) []
  if bp == [] then
    ((iterElems root).filter (fun el => stripNS el.tag == "para")).foldl
      (fun a el => appendIfLong 50 a (lxmlText el)) []
  else bp

/-- The joined abstract of extract_from_api_xml_lxml before promotion. -/
def lxmlAbstractJoined (root : XElement) : String :=
  if lxmlAbstractParts root != [] then joinSep "\n\n" (lxmlAbstractParts root) else ""

/-- The joined body text of extract_from_api_xml_lxml before promotion. -/
def lxmlBodyJoined (root : XElement) : String :=
  if lxmlBodyParts root != [] then joinSep "\n\n" (lxmlBodyParts root) else ""

/-- extract_from_api_xml_lxml on an already parsed tree: join the
candidate lists, then promote a long abstract to the empty full text; the
abstract field is left untruncated. -/
def extract_lxml_tree (root : XElement) : ExtractedContent :=
  if lxmlBodyJoined root = "" ∧ 200 < pyLen (lxmlAbstractJoined root) then
    { abstract := lxmlAbstractJoined root
      full_text := lxmlAbstractJoined root
      source := "api" }
  else
    { abstract := lxmlAbstractJoined root
      full_text := lxmlBodyJoined root
      source := "api" }

/-- content_extractor.extract_from_api_xml_lxml, with etree.fromstring
abstracted as a parsing oracle: a parse failure falls back to
extract_from_api_xml on the same raw body. -/
def extract_from_api_xml_lxml (parseLX parseET : String → Option XElement)
    (raw_body : String) : ExtractedContent :=
  match parseLX raw_body with
  | none => extract_from_api_xml parseET raw_body
  | some root => extract_lxml_tree root

/- ===== content_extractor.py : HTML strategy ===== -/

mutual
/-- A parsed HTML node: an element with tag, attributes and children, or a
text node. -/
inductive HNode : Type where
  | elem (tag : String) (attrs : List (String × String)) (children : HNodes)
  | text (s : String)
/-- A list of HTML nodes. -/
inductive HNodes : Type where
  | nil
  | cons (n : HNode) (rest : HNodes)
end

/-- The tag of an HTML node (empty for a text node). -/
def hTag : HNode → String
  | .elem t _ _ => t
  | .text _ => ""

/-- The attributes of an HTML node. -/
def hAttrs : HNode → List (String × String)
  | .elem _ a _ => a
  | .text _ => []

/-- Look an attribute up by name. -/
def attrVal (attrs : List (String × String)) (nm : String) : Option String :=
  match attrs.find? (fun p => p.1 == nm) with
  | some p => some p.2
  | none => none

/-- Whether pat is a leading segment of l. -/
def leadsWith : List Char → List Char → Bool
  | [], _ => true
  | _ :: _, [] => false
  | a :: as, b :: bs => a == b && leadsWith as bs

/-- Whether sub occurs contiguously inside l. -/
def containsSub (sub : List Char) : List Char → Bool
  | [] => leadsWith sub []
  | c :: rest => leadsWith sub (c :: rest) || containsSub sub rest

/-- Split a character list into maximal whitespace-free tokens. -/
def wsTokensAux : List Char → List Char → List String
  | [], acc => if acc.isEmpty then [] else [⟨acc.reverse⟩]
  | c :: rest, acc =>
    if c.isWhitespace then
      if acc.isEmpty then wsTokensAux rest []
      else ⟨acc.reverse⟩ :: wsTokensAux rest []
    else wsTokensAux rest (c :: acc)

/-- The whitespace-separated tokens of the class attribute of a node. -/
def classTokens (n : HNode) : List String :=
  wsTokensAux ((attrVal (hAttrs n) "class").getD "").data []

/-- CSS .c : the node carries class token c. -/
def hasClass (n : HNode) (c : String) : Bool := memStr c (classTokens n)

/-- CSS [class*=sub]: the class attribute value contains sub. -/
def hasClassSub (n : HNode) (sub : String) : Bool :=
  containsSub sub.data ((attrVal (hAttrs n) "class").getD "").data

/-- CSS [a]: the node carries attribute a. -/
def hasAttr (n : HNode) (a : String) : Bool := (attrVal (hAttrs n) a).isSome

/-- CSS #v: the id attribute equals v. -/
def idIs (n : HNode) (v : String) : Bool := attrVal (hAttrs n) "id" == some v

mutual
/-- All element nodes of a subtree in document order, the root included
when it is an element. -/
def allElems : HNode → List HNode
  | .text _ => []
  | .elem t a cs => .elem t a cs :: allElemsList cs
/-- All element nodes of a node list in document order. -/
def allElemsList : HNodes → List HNode
  | .nil => []
  | .cons n rest => allElems n ++ allElemsList rest
end

mutual
/-- The raw text-node strings of a subtree in document order. -/
def hTextNodes : HNode → List String
  | .text s => [s]
  | .elem _ _ cs => hTextNodesList cs
/-- The raw text-node strings of a node list. -/
def hTextNodesList : HNodes → List String
  | .nil => []
  | .cons n rest => hTextNodes n ++ hTextNodesList rest
end

/-- BeautifulSoup get_text(separator=" ", strip=True): strip every text
node, drop the empty ones, join with single spaces. -/
def get_text (n : HNode) : String :=
  joinSep " " (((hTextNodes n).map pyStrip).filter (fun s => s != ""))

/-- Strict descendant elements of a node in document order. -/
def descElemsH : HNode → List HNode
  | .elem _ _ cs => allElemsList cs
  | .text _ => []

/-- Plain list of a node list. -/
def hnodesToList : HNodes → List HNode
  | .nil => []
  | .cons n rest => n :: hnodesToList rest

/-- Plain list of the direct children of a node. -/
def hChildrenList : HNode → List HNode
  | .text _ => []
  | .elem _ _ cs => hnodesToList cs

/-- Whether a node is a p or div element. -/
def isPDiv (n : HNode) : Bool :=
  match n with
  | .elem t _ _ => t == "p" || t == "div"
  | .text _ => false

/-- The abstract selectors of extract_from_html, in order. -/
def htmlAbstractSelectors : List (HNode → Bool) :=
  [fun n => hasClassSub n "abstract",
   fun n => hasClass n "abstract",
   fun n => hasAttr n "data-abstract",
   fun n => hTag n == "div" && hasClass n "abstract-group"]

/-- The body-container selectors of extract_from_html, in order. -/
def htmlBodySelectors : List (HNode → Bool) :=
  [fun n => hasClass n "body",
   fun n => hasClassSub n "article-body",
   fun n => hasClassSub n "Body",
   fun n => hTag n == "div" && hasClass n "article-body",
   fun n => hTag n == "section" && hasClass n "body",
   fun n => idIs n "body",
   fun n => hasClass n "main-content"]

/-- Abstract candidates of extract_from_html: for each selector in order,
for each matching element in document order, keep its text when non-empty,
longer than 20 characters and not already kept; cap at the first 3. -/
def htmlAbstractParts (doc : HNode) : List String :=
  (htmlAbstractSelectors.foldl
    (fun acc sel => ((allElems doc).filter sel).foldl
      (fun a el => addAbstractCandidate a (get_text el)) acc) []).take 3

/-- Leaf-paragraph texts of one container: descendant p or div elements
with no direct p or div child, kept when the text is non-empty and longer
than 40 characters. -/
def htmlLeafParas (el : HNode) : List String :=
  ((descElemsH el).filter isPDiv).foldl
    (fun acc p =>
      if (hChildrenList p).any isPDiv then acc
      else appendIfLong 40 acc (get_text p)) []

/-- Loop over the containers matched by one selector; stop as soon as the
accumulated candidate list is non-empty. -/
def htmlContainersLoop : List HNode → List String → List String
  | [], parts => parts
  | el :: rest, parts =>
    let parts2 := parts ++ htmlLeafParas el
    if parts2 != [] then parts2 else htmlContainersLoop rest parts2

/-- Loop over the body selectors: the first selector whose containers
produce any candidate wins. -/
def htmlBodyFromSelectors (doc : HNode) : List (HNode → Bool) → List String
  | [] => []
  | sel :: rest =>
    let parts := htmlContainersLoop ((allElems doc).filter sel) []
    if parts != [] then parts else htmlBodyFromSelectors doc rest

/-- Body candidates of extract_from_html: the selector loop, and when it
yields nothing, all p elements of the document with text longer than 80
characters. -/
def htmlBodyParts (doc : HNode) : List String :=
  let bp := htmlBodyFromSelectors doc htmlBodySelectors
  if bp == [] then
    ((allElems doc).filter (fun n => hTag n == "p")).foldl
      (fun a p => appendIfLong 80 a (get_text p)) []
  else bp

/-- The joined abstract of extract_from_html. -/
def htmlAbstractJoined (doc : HNode) : String :=
  if htmlAbstractParts doc != [] then joinSep "\n\n" (htmlAbstractParts doc) else ""

/-- The joined body text of extract_from_html before promotion. -/
def htmlBodyJoined (doc : HNode) : String :=
  if htmlBodyParts doc != [] then joinSep "\n\n" (htmlBodyParts doc) else ""

/-- content_extractor.extract_from_html on an already parsed document:
join the candidate lists, then promote a non-empty abstract verbatim to
the empty full text; source is "crawl". -/
def extract_from_html_tree (doc : HNode) : ExtractedContent :=
  if htmlBodyJoined doc = "" ∧ htmlAbstractJoined doc ≠ "" then
    { abstract := htmlAbstractJoined doc
      full_text := htmlAbstractJoined doc
      source := "crawl" }
  else
    { abstract := htmlAbstractJoined doc
      full_text := htmlBodyJoined doc
      source := "crawl" }

/-- content_extractor.extract_from_html with the (never failing)
BeautifulSoup parser abstracted as an oracle. -/
def extract_from_html (parseHTML : String → HNode) (raw_body : String) : ExtractedContent :=
  extract_from_html_tree (parseHTML raw_body)

/- ===== rss_parser.py ===== -/

/-- An item parsed from a feed (rss_parser.RSSItem). -/
structure RSSItem where
  title : String
  link : String
  doi : Option String
  pii : Option String
  description : String
deriving DecidableEq, Repr

/-- RSSItem.article_id: (doi, value) when a non-empty DOI is present, else
(pii, value) when a non-empty PII is present, else nothing. -/
def article_id (i : RSSItem) : Option (String × String) :=
  match optNonempty i.doi with
  | some d => some ("doi", d)
  | none =>
    match optNonempty i.pii with
    | some p => some ("pii", p)
    | none => none

/-- A raw feed entry as handed over by the (external) feed parser; absent
fields are the empty string. -/
structure FeedEntry where
  title : String
  link : String
  description : String
  summary : String
  dc_identifier : String
  prism_doi : String
deriving DecidableEq, Repr

/-- Word characters of the regular-expression metacharacter w. -/
def isWordChar (c : Char) : Bool := c.isAlphanum || c == '_'

/-- Characters admitted inside the DOI suffix by DOI_PATTERN: everything
but whitespace, double quote, single quote and angle brackets. -/
def isDoiTokenChar (c : Char) : Bool :=
  !(c.isWhitespace || c == '"' || c == '\x27' || c == '<' || c == '>')

/-- Backtracking for the trailing word-boundary of DOI_PATTERN: given the
candidate suffix reversed and the character following it, drop characters
from the end until a word boundary holds; the result is still reversed. -/
def trimTokenToBoundary : List Char → Option Char → Option (List Char)
  | [], _ => none
  | c :: rest, next =>
    if isWordChar c != (match next with | some d => isWordChar d | none => false) then
      some (c :: rest)
    else trimTokenToBoundary rest (some c)

/-- One anchored attempt of DOI_PATTERN at the start of l, with prev the
character just before l: word boundary, literal 10., at least 4 digits, a
slash, then a maximal admissible suffix trimmed back to a word boundary.
Returns the matched group. -/
def matchDoiAt (prev : Option Char) (l : List Char) : Option (List Char) :=
  if (match prev with | some c => isWordChar c | none => false) then none
  else
    match l with
    | '1' :: '0' :: '.' :: rest =>
      let digits := rest.takeWhile Char.isDigit
      let rest2 := rest.drop digits.length
      if digits.length < 4 then none
      else
        match rest2 with
        | '/' :: rest3 =>
          let token := rest3.takeWhile isDoiTokenChar
          if token.length == 0 then none
          else
            match trimTokenToBoundary token.reverse (rest3.drop token.length).head? with
            | some revTok => some ('1' :: '0' :: '.' :: (digits ++ '/' :: revTok.reverse))
            | none => none
        | _ => none
    | _ => none

/-- re.search for DOI_PATTERN: try every start position left to right. -/
def doiSearchAux : Option Char → List Char → Option (List Char)
  | _, [] => none
  | prev, c :: rest =>
    match matchDoiAt prev (c :: rest) with
    | some g => some g
    | none => doiSearchAux (some c) rest

/-- The leftmost DOI_PATTERN match in a string. -/
def doiSearch (s : String) : Option String :=
  match doiSearchAux none s.data with
  | some g => some ⟨g⟩
  | none => none

/-- rss_parser._extract_doi_from_text: the leftmost DOI match with
trailing period, comma and semicolon characters stripped. -/
def extract_doi_from_text (t : String) : Option String :=
  match doiSearch t with
  | some d => some (pyRstrip d ['.', ',', ';'])
  | none => none

/-- rss_parser._extract_doi on an entry: try the link, then the
description (falling back to the summary); when neither yields a truthy
match, fall back to the dc_identifier or prism_doi field, scanning it and
using its stripped value verbatim when the scan fails. -/
def extract_doi (e : FeedEntry) : Option String :=
  let desc := if e.description != "" then e.description else e.summary
  let tryText : String → Option String := fun t =>
    match extract_doi_from_text t with
    | some d => if d == "" then none else some d
    | none => none
  match tryText e.link with
  | some d => some d
  | none =>
    match tryText desc with
    | some d => some d
    | none =>
      let dc := if e.dc_identifier != "" then e.dc_identifier else e.prism_doi
      if pyStrip dc != "" then
        match extract_doi_from_text dc with
        | some d => if d == "" then some (pyStrip dc) else some d
        | none => some (pyStrip dc)
      else none

/-- Match pat against the start of l ignoring case; return the rest. -/
def ciEat : List Char → List Char → Option (List Char)
  | [], rest => some rest
  | _ :: _, [] => none
  | p :: ps, c :: cs => if c.toLower == p.toLower then ciEat ps cs else none

/-- One anchored attempt of PII_PATTERN at the start of l: the article
path segment, an optional abs segment, the pii segment, then the captured
token S followed by at least one alphanumeric character, all
case-insensitive with the token capture preserving case. -/
def piiMatchAt (l : List Char) : Option (List Char) :=
  match ciEat "/science/article".data l with
  | none => none
  | some r1 =>
    let r2 :=
      match ciEat "/abs".data r1 with
      | some ra =>
        match ciEat "/pii/".data ra with
        | some _ => ra
        | none => r1
      | none => r1
    match ciEat "/pii/".data r2 with
    | none => none
    | some r3 =>
      match r3 with
      | c :: rest =>
        if c.toLower == 's' then
          let tok := rest.takeWhile Char.isAlphanum
          if tok == [] then none else some (c :: tok)
        else none
      | [] => none

/-- re.search for PII_PATTERN: try every start position left to right. -/
def piiSearchAux : List Char → Option (List Char)
  | [] => none
  | c :: rest =>
    match piiMatchAt (c :: rest) with
    | some tok => some tok
    | none => piiSearchAux rest

/-- rss_parser._extract_pii: the captured PII token of the leftmost
PII_PATTERN match in the link. -/
def extract_pii (link : String) : Option String :=
  match piiSearchAux link.data with
  | some tok => some ⟨tok⟩
  | none => none

/-- The RSSItem built by parse_feed_content for one entry with a truthy
stripped link. -/
def mkRSSItem (e : FeedEntry) : RSSItem :=
  let link := pyStrip e.link
  let description := pyStrip (if e.description != "" then e.description else e.summary)
  { title := pyStrip e.title
    link := link
    doi := orStrOpt (extract_doi e) (extract_doi_from_text (link ++ " " ++ description))
    pii := extract_pii link
    description := description }

/-- rss_parser.parse_feed_content from the entry loop on: entries whose
stripped link is empty are skipped, every other entry yields one RSSItem
in order.  The upstream feed parser is abstracted as the entries input. -/
def parse_feed_content : List FeedEntry → List RSSItem
  | [] => []
  | e :: rest =>
    if pyStrip e.link == "" then parse_feed_content rest
    else mkRSSItem e :: parse_feed_content rest

/- ===== article_fetcher.py ===== -/

/-- article_fetcher.FetchedArticle. -/
structure FetchedArticle where
  source : String
  raw_body : String
  content_type : String
  item : RSSItem
deriving DecidableEq, Repr

/-- article_fetcher.fetch_via_api with the HTTP layer abstracted as an
oracle from the (id type, id value) request to an optional response: an
empty (stripped) key or a missing identifier yields nothing without
touching the network; otherwise the channel outcome is the oracle result
(nothing covers transport failures and non-2xx responses). -/
def fetch_via_api (net : String × String → Option FetchedArticle)
    (item : RSSItem) (api_key : String) : Option FetchedArticle :=
  if pyStrip api_key = "" then none
  else
    match article_id item with
    | none => none
    | some aid => net aid

/-- article_fetcher.fetch_via_crawl with the HTTP layer abstracted as an
oracle from the requested link to an optional response. -/
def fetch_via_crawl (crawlNet : String → Option FetchedArticle)
    (item : RSSItem) : Option FetchedArticle :=
  crawlNet item.link

/-- article_fetcher.fetch_article: when prefer_api holds, try the API
channel and return its result on success, otherwise fall through to the
crawl channel; when prefer_api does not hold, go straight to the crawl
channel. -/
def fetch_article (net : String × String → Option FetchedArticle)
    (crawlNet : String → Option FetchedArticle) (item : RSSItem)
    (prefer_api : Bool) (api_key : String) : Option FetchedArticle :=
  if prefer_api then
    match fetch_via_api net item api_key with
    | some r => some r
    | none => fetch_via_crawl crawlNet item
  else fetch_via_crawl crawlNet item

/- ===== main.py ===== -/

/-- Loop of main.dedupe_by_link with the set of already seen links made
explicit. -/
def dedupeAux : List RSSItem → List String → List RSSItem
  | [], _ => []
  | x :: rest, seen =>
    if memStr x.link seen then dedupeAux rest seen
    else x :: dedupeAux rest (x.link :: seen)

/-- main.dedupe_by_link: keep the first item for every link. -/
def dedupe_by_link (items : List RSSItem) : List RSSItem := dedupeAux items []

/- ===== comparison definitions and concrete sample inputs ===== -/

/-- Code-order abstract candidates of the etree strategy: qualifying
texts of the description pass followed by the abstract pass. -/
def xmlAbstractCandidates (root : XElement) : List String :=
  ((find_all_with_tag root "description" ++ find_all_with_tag root "abstract").map
    text_of).filter qualAbs

/-- Code-order abstract candidates of the lxml strategy. -/
def lxmlAbstractCandidates (root : XElement) : List String :=
  ((xpathNameLong root "description" ++ xpathNameLong root "abstract").map
    lxmlText).filter qualAbs

/-- Modelled from the spec wording of the candidate cap: the qualifying
description or abstract texts in document order (one combined
document-order pass, not the two per-name passes of the code). -/
def xmlDocOrderCandidates (root : XElement) : List String :=
  (((iterElems root).filter
    (fun el => stripNS el.tag == "description" || stripNS el.tag == "abstract")).map
    text_of).filter qualAbs

/-- A string of n copies of c. -/
def strRep (c : Char) (n : Nat) : String := ⟨List.replicate n c⟩

/-- A childless element locally named abstract with the given text. -/
def absDoc (txt : String) : XElement := .mk "abstract" txt .nil

/-- Children list without tail texts. -/
def kids : List XElement → XChildren
  | [] => .nil
  | e :: rest => .cons e "" (kids rest)

/-- An abstract element with 21 characters of text. -/
def doc21 : XElement := absDoc (strRep 'a' 21)

/-- An abstract element with 30 characters of text. -/
def doc30 : XElement := absDoc (strRep 'a' 30)

/-- An abstract element with 300 characters of text. -/
def doc300 : XElement := absDoc (strRep 'a' 300)

/-- An abstract element with 600 characters of text. -/
def doc600 : XElement := absDoc (strRep 'a' 600)

/-- An element with no text and no children. -/
def docEmpty : XElement := .mk "articleroot" "" .nil

/-- A root with five distinct qualifying abstract elements. -/
def doc5 : XElement :=
  .mk "articleroot" "" (kids
    [absDoc (strRep 'a' 21), absDoc (strRep 'b' 21), absDoc (strRep 'c' 21),
     absDoc (strRep 'd' 21), absDoc (strRep 'e' 21)])

/-- A root with three qualifying abstract elements followed by a
qualifying description element. -/
def docMix : XElement :=
  .mk "articleroot" "" (kids
    [absDoc (strRep 'a' 21), absDoc (strRep 'b' 21), absDoc (strRep 'c' 21),
     .mk "description" (strRep 'd' 21) .nil])

/-- A parser oracle that always fails. -/
def parseNone : String → Option XElement := fun _ => none

/-- A parser oracle producing doc21. -/
def parse21 : String → Option XElement := fun _ => some doc21

/-- A parser oracle producing doc30. -/
def parse30 : String → Option XElement := fun _ => some doc30

/-- A parser oracle producing doc300. -/
def parse300 : String → Option XElement := fun _ => some doc300

/-- A parser oracle producing doc600. -/
def parse600 : String → Option XElement := fun _ => some doc600

/-- The abstract-group div of the HTML sample (text of length 30). -/
def wdocDiv : HNode :=
  .elem "div" [("class", "abstract-group")]
    (.cons (.text "Foo bar baz qux quux corge gra") .nil)

/-- The HTML sample document: html, body, the abstract-group div, no
paragraph content anywhere. -/
def wdoc : HNode :=
  .elem "html" [] (.cons (.elem "body" [] (.cons wdocDiv .nil)) .nil)

/-- An HTML document with no content at all. -/
def hEmpty : HNode := .elem "html" [] .nil

/-- A sample feed item with a DOI. -/
def itemA : RSSItem :=
  { title := "A", link := "https://x/a", doi := some "10.1234/abcd",
    pii := none, description := "d" }

/-- A sample feed item sharing the link of itemA. -/
def itemB : RSSItem :=
  { title := "B", link := "https://x/a", doi := none,
    pii := none, description := "e" }

/-- A sample feed item with a distinct link. -/
def itemC : RSSItem :=
  { title := "C", link := "https://x/c", doi := none,
    pii := none, description := "" }

/-- A sample API response document. -/
def artA : FetchedArticle :=
  { source := "api", raw_body := "<x/>", content_type := "application/xml",
    item := itemA }

/-- A sample crawl response document. -/
def artB : FetchedArticle :=
  { source := "crawl", raw_body := "<html/>", content_type := "text/html",
    item := itemA }

/-- An API oracle that always succeeds. -/
def netSome : String × String → Option FetchedArticle := fun _ => some artA

/-- An API oracle that always fails. -/
def netNone : String × String → Option FetchedArticle := fun _ => none

/-- A crawl oracle that always succeeds. -/
def crawlSome : String → Option FetchedArticle := fun _ => some artB

/-- A crawl oracle that always fails. -/
def crawlNone : String → Option FetchedArticle := fun _ => none

/-- A feed entry whose link carries one DOI (followed by trailing
punctuation in the surrounding text) and whose description carries a
different DOI. -/
def entryW : FeedEntry :=
  { title := "T", link := "https://example.com/10.1016/j.cell.2024.001, page",
    description := "alt 10.9999/other.x here", summary := "",
    dc_identifier := "", prism_doi := "" }

/-- A feed entry whose link is whitespace only. -/
def entryNoLink : FeedEntry :=
  { title := "X", link := "   ", description := "see it", summary := "",
    dc_identifier := "", prism_doi := "" }

/- ===== helper lemmas ===== -/

set_option maxRecDepth 100000

theorem memStr_append (a : String) (l1 l2 : List String) :
    memStr a (l1 ++ l2) = (memStr a l1 || memStr a l2) := by
  induction l1 with
  | nil => simp [memStr]
  | cons b rest ih => simp [memStr, ih, Bool.or_assoc]

theorem dedupKFAux_congr : ∀ (l s1 s2 : List String),
    (∀ a, memStr a s1 = memStr a s2) → dedupKFAux l s1 = dedupKFAux l s2
  | [], _, _, _ => rfl
  | t :: rest, s1, s2, h => by
    have hc : ∀ a, memStr a (t :: s1) = memStr a (t :: s2) := fun a => by
      simp [memStr, h a]
    simp only [dedupKFAux, h t]
    cases hm : memStr t s2
    · simp only [Bool.false_eq_true, if_false]
      exact congrArg (t :: ·) (dedupKFAux_congr rest (t :: s1) (t :: s2) hc)
    · simp only [if_true]
      exact dedupKFAux_congr rest s1 s2 h

theorem foldl_addAbstractCandidate : ∀ (l acc : List String),
    l.foldl addAbstractCandidate acc = acc ++ dedupKFAux (l.filter qualAbs) acc
  | [], acc => by simp [dedupKFAux]
  | t :: rest, acc => by
    simp only [List.foldl_cons, List.filter_cons]
    cases hq : qualAbs t
    · have hstep : addAbstractCandidate acc t = acc := by
        simp [addAbstractCandidate, hq]
      rw [hstep]
      simp only [Bool.false_eq_true, if_false]
      exact foldl_addAbstractCandidate rest acc
    · simp only [if_true]
      cases hm : memStr t acc
      · have hstep : addAbstractCandidate acc t = acc ++ [t] := by
          simp [addAbstractCandidate, hq, hm]
        rw [hstep, foldl_addAbstractCandidate rest (acc ++ [t])]
        have hd : dedupKFAux (t :: rest.filter qualAbs) acc
            = t :: dedupKFAux (rest.filter qualAbs) (t :: acc) := by
          simp [dedupKFAux, hm]
        rw [hd, dedupKFAux_congr (rest.filter qualAbs) (acc ++ [t]) (t :: acc)
          (fun a => by simp [memStr_append, memStr, Bool.or_comm])]
        simp
      · have hstep : addAbstractCandidate acc t = acc := by
          simp [addAbstractCandidate, hq, hm]
        rw [hstep]
        have hd : dedupKFAux (t :: rest.filter qualAbs) acc
            = dedupKFAux (rest.filter qualAbs) acc := by
          simp [dedupKFAux, hm]
        rw [hd]
        exact foldl_addAbstractCandidate rest acc

theorem xmlAbstractParts_eq (root : XElement) :
    xmlAbstractParts root = (dedupKeepFirst (xmlAbstractCandidates root)).take 3 := by
  have hmapfold : ∀ (els : List XElement) (acc : List String),
      els.foldl (fun acc el => addAbstractCandidate acc (text_of el)) acc
        = (els.map text_of).foldl addAbstractCandidate acc := by
    intro els acc
    rw [List.foldl_map]
  have hp : (find_all_with_tag root "abstract").foldl
      (fun acc el => addAbstractCandidate acc (text_of el))
      ((find_all_with_tag root "description").foldl
        (fun acc el => addAbstractCandidate acc (text_of el)) [])
      = dedupKeepFirst (xmlAbstractCandidates root) := by
    rw [hmapfold, hmapfold, ← List.foldl_append, foldl_addAbstractCandidate]
    unfold xmlAbstractCandidates dedupKeepFirst
    rw [List.map_append]
    simp
  unfold xmlAbstractParts
  dsimp only
  rw [hp]
  by_cases he : dedupKeepFirst (xmlAbstractCandidates root) = []
  · simp [he]
  · simp [he]

theorem lxmlAbstractParts_eq (root : XElement) :
    lxmlAbstractParts root = (dedupKeepFirst (lxmlAbstractCandidates root)).take 3 := by
  have hmapfold : ∀ (els : List XElement) (acc : List String),
      els.foldl (fun acc el => addAbstractCandidate acc (lxmlText el)) acc
        = (els.map lxmlText).foldl addAbstractCandidate acc := by
    intro els acc
    rw [List.foldl_map]
  unfold lxmlAbstractParts
  dsimp only
  rw [hmapfold, hmapfold, ← List.foldl_append, foldl_addAbstractCandidate]
  unfold lxmlAbstractCandidates dedupKeepFirst
  rw [List.map_append]
  simp

theorem dedupeAux_congr : ∀ (items : List RSSItem) (s1 s2 : List String),
    (∀ a, memStr a s1 = memStr a s2) → dedupeAux items s1 = dedupeAux items s2
  | [], _, _, _ => rfl
  | y :: rest, s1, s2, h => by
    have hc : ∀ a, memStr a (y.link :: s1) = memStr a (y.link :: s2) := fun a => by
      simp [memStr, h a]
    simp only [dedupeAux, h y.link]
    cases hm : memStr y.link s2
    · simp only [Bool.false_eq_true, if_false]
      exact congrArg (y :: ·) (dedupeAux_congr rest (y.link :: s1) (y.link :: s2) hc)
    · simp only [if_true]
      exact dedupeAux_congr rest s1 s2 h

theorem dedupeAux_filter : ∀ (items : List RSSItem) (seen : List String) (l : String),
    memStr l seen = true →
    dedupeAux items seen = dedupeAux (items.filter (fun y => y.link != l)) seen
  | [], _, _, _ => rfl
  | y :: rest, seen, l, h => by
    simp only [List.filter_cons]
    cases hb : y.link == l
    · simp only [bne, hb, Bool.not_false, if_true]
      simp only [dedupeAux]
      cases hm : memStr y.link seen
      · simp only [Bool.false_eq_true, if_false]
        exact congrArg (y :: ·)
          (dedupeAux_filter rest (y.link :: seen) l (by simp [memStr, h]))
      · simp only [if_true]
        exact dedupeAux_filter rest seen l h
    · have hy : y.link = l := eq_of_beq hb
      have hm : memStr y.link seen = true := by rw [hy]; exact h
      simp only [bne, hb, Bool.not_true, Bool.false_eq_true, if_false]
      simp only [dedupeAux, hm, if_true]
      exact dedupeAux_filter rest seen l h

theorem dedupeAux_drop : ∀ (items : List RSSItem) (seen : List String) (l : String),
    (∀ y ∈ items, (y.link == l) = false) →
    dedupeAux items (l :: seen) = dedupeAux items seen
  | [], _, _, _ => rfl
  | y :: rest, seen, l, h => by
    have hyl : (y.link == l) = false := h y (List.mem_cons_self y rest)
    have hrest : ∀ z ∈ rest, (z.link == l) = false := fun z hz =>
      h z (List.mem_cons_of_mem y hz)
    simp only [dedupeAux, memStr, hyl, Bool.false_or]
    cases hm : memStr y.link seen
    · simp only [Bool.false_eq_true, if_false]
      refine congrArg (y :: ·) ?_
      rw [dedupeAux_congr rest (y.link :: l :: seen) (l :: y.link :: seen)
        (fun a => by simp [memStr, Bool.or_left_comm])]
      exact dedupeAux_drop rest (y.link :: seen) l hrest
    · simp only [if_true]
      exact dedupeAux_drop rest seen l hrest

theorem dedupeAux_mem_sub : ∀ (items : List RSSItem) (seen : List String) (z : RSSItem),
    z ∈ dedupeAux items seen → z ∈ items
  | [], _, _, hz => by simp [dedupeAux] at hz
  | y :: rest, seen, z, hz => by
    simp only [dedupeAux] at hz
    cases hm : memStr y.link seen
    · rw [hm] at hz
      simp only [Bool.false_eq_true, if_false, List.mem_cons] at hz
      rcases hz with rfl | hz
      · exact List.mem_cons_self z rest
      · exact List.mem_cons_of_mem y (dedupeAux_mem_sub rest (y.link :: seen) z hz)
    · rw [hm] at hz
      simp only [if_true] at hz
      exact List.mem_cons_of_mem y (dedupeAux_mem_sub rest seen z hz)

theorem dedupeAux_not_seen : ∀ (items : List RSSItem) (seen : List String) (z : RSSItem),
    z ∈ dedupeAux items seen → memStr z.link seen = false
  | [], _, _, hz => by simp [dedupeAux] at hz
  | y :: rest, seen, z, hz => by
    simp only [dedupeAux] at hz
    cases hm : memStr y.link seen
    · rw [hm] at hz
      simp only [Bool.false_eq_true, if_false, List.mem_cons] at hz
      rcases hz with rfl | hz
      · exact hm
      · have hrec := dedupeAux_not_seen rest (y.link :: seen) z hz
        simp only [memStr, Bool.or_eq_false_iff] at hrec
        exact hrec.2
    · rw [hm] at hz
      simp only [if_true] at hz
      exact dedupeAux_not_seen rest seen z hz

theorem dedupeAux_nodup : ∀ (items : List RSSItem) (seen : List String),
    ((dedupeAux items seen).map RSSItem.link).Nodup
  | [], _ => by simp [dedupeAux]
  | y :: rest, seen => by
    simp only [dedupeAux]
    cases hm : memStr y.link seen
    · simp only [Bool.false_eq_true, if_false, List.map_cons]
      refine List.nodup_cons.mpr ⟨?_, dedupeAux_nodup rest (y.link :: seen)⟩
      intro hmem
      rcases List.mem_map.mp hmem with ⟨z, hz, hzl⟩
      have hns := dedupeAux_not_seen rest (y.link :: seen) z hz
      rw [hzl] at hns
      simp [memStr] at hns
    · simp only [if_true]
      exact dedupeAux_nodup rest seen

theorem dedupeAux_cover : ∀ (items : List RSSItem) (seen : List String) (z : RSSItem),
    z ∈ items → memStr z.link seen = false →
    ∃ w ∈ dedupeAux items seen, w.link = z.link
  | [], _, _, hz, _ => by simp at hz
  | y :: rest, seen, z, hz, hs => by
    simp only [dedupeAux]
    cases hm : memStr y.link seen
    · simp only [Bool.false_eq_true, if_false]
      rcases List.mem_cons.mp hz with rfl | hz2
      · exact ⟨z, List.mem_cons_self z _, rfl⟩
      · cases hzy : z.link == y.link
        · have hseen2 : memStr z.link (y.link :: seen) = false := by
            simp [memStr, hzy, hs]
          rcases dedupeAux_cover rest (y.link :: seen) z hz2 hseen2 with ⟨w, hw, hwl⟩
          exact ⟨w, List.mem_cons_of_mem y hw, hwl⟩
        · exact ⟨y, List.mem_cons_self y _, (eq_of_beq hzy).symm⟩
    · simp only [if_true]
      rcases List.mem_cons.mp hz with rfl | hz2
      · rw [hs] at hm
        exact absurd hm (by simp)
      · exact dedupeAux_cover rest seen z hz2 hs

theorem head?_dropWhile_false {α : Type} (p : α → Bool) :
    ∀ (l : List α) (c : α), (l.dropWhile p).head? = some c → p c = false
  | [], c, h => by simp [List.dropWhile] at h
  | a :: rest, c, h => by
    cases hp : p a
    · rw [List.dropWhile_cons, hp] at h
      simp only [Bool.false_eq_true, if_false, List.head?_cons, Option.some.injEq] at h
      rw [← h]
      exact hp
    · rw [List.dropWhile_cons, hp] at h
      simp only [if_true] at h
      exact head?_dropWhile_false p rest c h

theorem pyRstrip_no_trailing (s : String) (cs : List Char) :
    endsWithAny (pyRstrip s cs) cs = false := by
  have h1 : (pyRstrip s cs).data.getLast?
      = (s.data.reverse.dropWhile fun c => cs.contains c).head? := by
    show ((s.data.reverse.dropWhile fun c => cs.contains c).reverse).getLast? = _
    exact List.getLast?_reverse _
  cases h : (s.data.reverse.dropWhile fun c => cs.contains c).head? with
  | none =>
    unfold endsWithAny
    rw [h1, h]
  | some c =>
    have hc : cs.contains c = false :=
      head?_dropWhile_false (fun c => cs.contains c) _ c h
    unfold endsWithAny
    rw [h1, h]
    exact hc

theorem extract_xml_tree_source (r : XElement) : (extract_xml_tree r).source = "api" := by
  unfold extract_xml_tree
  split <;> rfl

theorem extract_lxml_tree_source (r : XElement) : (extract_lxml_tree r).source = "api" := by
  unfold extract_lxml_tree
  split <;> rfl

/- ===== claims ===== -/

/-- C1 counterexample: one raw body, parsed to the same 21-character
abstract element by both parsers, on which the tree-walk extractor and the
path-query extractor return different ExtractedContent (the path-query
strategy counts the element text twice), refuting the claimed output
equality of the two strategies. -/
theorem c1_counterexample :
    extract_from_api_xml parse21 "<a/>" ≠ extract_from_api_xml_lxml parse21 parse21 "<a/>" := by
  decide

/-- C1 as amended: for every raw body, the two structured-document
extraction strategies agree on the source tag ("api"), but not in general
on abstract or full_text. -/
theorem c1_amended_source_api (pLX pET : String → Option XElement) (raw : String) :
    (extract_from_api_xml pET raw).source = "api" ∧
    (extract_from_api_xml_lxml pLX pET raw).source = "api" := by
  have hx : (extract_from_api_xml pET raw).source = "api" := by
    unfold extract_from_api_xml
    cases pET raw with
    | none => rfl
    | some r => exact extract_xml_tree_source r
  refine ⟨hx, ?_⟩
  unfold extract_from_api_xml_lxml
  cases pLX raw with
  | none => exact hx
  | some r => exact extract_lxml_tree_source r

/-- C2 counterexample: a parsed abstract element whose collected abstract
has 600 characters and no body candidates; the path-query strategy
promotes the abstract to full_text but leaves the abstract field at all
600 characters instead of the claimed 500-character prefix plus
ellipsis. -/
theorem c2_counterexample :
    (extract_from_api_xml_lxml parse300 parseNone "<a/>").full_text = strRep 'a' 600 ∧
    (extract_from_api_xml_lxml parse300 parseNone "<a/>").abstract = strRep 'a' 600 ∧
    (extract_from_api_xml_lxml parse300 parseNone "<a/>").abstract ≠
      pyTake (extract_from_api_xml_lxml parse300 parseNone "<a/>").full_text 500 ++ "..." :=
  ⟨by decide, by decide, by decide⟩

/-- C2 as amended: in the tree-walk (ElementTree) strategy, for every
successfully parsed document with empty collected body text and a
collected abstract longer than 200 characters, full_text becomes the
original abstract and the abstract field is truncated to its first 500
characters plus an ellipsis exactly when the original exceeded 500
characters; the path-query strategy promotes without truncating. -/
theorem c2_etree_promotion (p : String → Option XElement) (raw : String) (root : XElement)
    (hp : p raw = some root) (hb : xmlBodyJoined root = "")
    (ha : 200 < pyLen (xmlAbstractJoined root)) :
    extract_from_api_xml p raw =
      { abstract :=
          if 500 < pyLen (xmlAbstractJoined root) then
            pyTake (xmlAbstractJoined root) 500 ++ "..."
          else xmlAbstractJoined root
        full_text := xmlAbstractJoined root
        source := "api" } := by
  unfold extract_from_api_xml
  rw [hp]
  show extract_xml_tree root = _
  unfold extract_xml_tree
  rw [if_pos ⟨hb, ha⟩]

/-- C2 witness: the 600-character abstract with no body candidates,
parsed by the tree-walk strategy: full_text is the full 600-character
original and abstract is the 500-character prefix plus ellipsis. -/
theorem c2_witness :
    pyLen (xmlAbstractJoined doc600) = 600 ∧
    extract_from_api_xml parse600 "<a/>" =
      { abstract :=
          if 500 < pyLen (xmlAbstractJoined doc600) then
            pyTake (xmlAbstractJoined doc600) 500 ++ "..."
          else xmlAbstractJoined doc600
        full_text := xmlAbstractJoined doc600
        source := "api" } ∧
    (extract_from_api_xml parse600 "<a/>").abstract = strRep 'a' 500 ++ "..." ∧
    (extract_from_api_xml parse600 "<a/>").full_text = strRep 'a' 600 :=
  ⟨by decide, c2_etree_promotion parse600 "<a/>" doc600 rfl rfl (by decide),
   by decide, by decide⟩

/-- C3 counterexample: a parsed document with a 30-character abstract and
no body candidates; the result has empty full_text while the abstract is
non-empty and not longer than 200 characters, so neither disjunct of the
claimed invariant holds. -/
theorem c3_counterexample :
    (extract_from_api_xml parse30 "<a/>").full_text = "" ∧
    (extract_from_api_xml parse30 "<a/>").abstract ≠ "" ∧
    ¬ 200 < pyLen (extract_from_api_xml parse30 "<a/>").abstract :=
  ⟨by decide, by decide, by decide⟩

/-- C3 as amended: when full_text of an extraction result is empty, the
abstract has at most 200 characters in both structured strategies (a
longer abstract is always promoted), and is empty in the HTML strategy;
the promotion rule is applied at most once per call. -/
theorem c3_amended_invariant (x : XElement) (h : HNode) :
    ((extract_xml_tree x).full_text = "" → pyLen (extract_xml_tree x).abstract ≤ 200) ∧
    ((extract_lxml_tree x).full_text = "" → pyLen (extract_lxml_tree x).abstract ≤ 200) ∧
    ((extract_from_html_tree h).full_text = "" → (extract_from_html_tree h).abstract = "") := by
  refine ⟨?_, ?_, ?_⟩
  · unfold extract_xml_tree
    by_cases hc : xmlBodyJoined x = "" ∧ 200 < pyLen (xmlAbstractJoined x)
    · rw [if_pos hc]
      intro hft
      exact absurd ((show xmlAbstractJoined x = "" from hft) ▸ hc.2) (by decide)
    · rw [if_neg hc]
      intro hft
      by_cases h2 : 200 < pyLen (xmlAbstractJoined x)
      · exact absurd ⟨show xmlBodyJoined x = "" from hft, h2⟩ hc
      · exact Nat.le_of_not_lt h2
  · unfold extract_lxml_tree
    by_cases hc : lxmlBodyJoined x = "" ∧ 200 < pyLen (lxmlAbstractJoined x)
    · rw [if_pos hc]
      intro hft
      exact absurd ((show lxmlAbstractJoined x = "" from hft) ▸ hc.2) (by decide)
    · rw [if_neg hc]
      intro hft
      by_cases h2 : 200 < pyLen (lxmlAbstractJoined x)
      · exact absurd ⟨show lxmlBodyJoined x = "" from hft, h2⟩ hc
      · exact Nat.le_of_not_lt h2
  · unfold extract_from_html_tree
    by_cases hc : htmlBodyJoined h = "" ∧ htmlAbstractJoined h ≠ ""
    · rw [if_pos hc]
      intro hft
      exact absurd (show htmlAbstractJoined h = "" from hft) hc.2
    · rw [if_neg hc]
      intro hft
      show htmlAbstractJoined h = ""
      by_contra hne
      exact hc ⟨show htmlBodyJoined h = "" from hft, hne⟩

/-- C3 witness: the amended invariant instantiated at concrete empty
documents, with the hypotheses discharged by evaluation. -/
theorem c3_witness :
    pyLen (extract_xml_tree docEmpty).abstract ≤ 200 ∧
    pyLen (extract_lxml_tree docEmpty).abstract ≤ 200 ∧
    (extract_from_html_tree hEmpty).abstract = "" :=
  ⟨(c3_amended_invariant docEmpty hEmpty).1 rfl,
   (c3_amended_invariant docEmpty hEmpty).2.1 rfl,
   (c3_amended_invariant docEmpty hEmpty).2.2 rfl⟩

/-- C4: for every raw body rejected by both underlying parsers, both
structured extraction strategies return the empty ExtractedContent with
abstract "", full_text "" and source "api" (the exception is absorbed,
never propagated). -/
theorem c4_malformed_returns_empty (pET pLX : String → Option XElement) (raw : String)
    (h1 : pET raw = none) (h2 : pLX raw = none) :
    extract_from_api_xml pET raw = { abstract := "", full_text := "", source := "api" } ∧
    extract_from_api_xml_lxml pLX pET raw
      = { abstract := "", full_text := "", source := "api" } := by
  have hx : extract_from_api_xml pET raw
      = { abstract := "", full_text := "", source := "api" } := by
    unfold extract_from_api_xml
    rw [h1]
  refine ⟨hx, ?_⟩
  unfold extract_from_api_xml_lxml
  rw [h2]
  exact hx

/-- C4 witness: a failing parser oracle on a malformed raw body. -/
theorem c4_witness :
    extract_from_api_xml parseNone "<bad" = { abstract := "", full_text := "", source := "api" } ∧
    extract_from_api_xml_lxml parseNone parseNone "<bad"
      = { abstract := "", full_text := "", source := "api" } :=
  c4_malformed_returns_empty parseNone parseNone "<bad" rfl rfl

/-- C5: in the HTML strategy, for every parsed document whose collected
body text is empty and whose collected abstract is non-empty, full_text
is set to the abstract verbatim: no truncation, no ellipsis and no
length threshold gate. -/
theorem c5_html_promotion_verbatim (doc : HNode)
    (hb : htmlBodyJoined doc = "") (ha : htmlAbstractJoined doc ≠ "") :
    extract_from_html_tree doc =
      { abstract := htmlAbstractJoined doc
        full_text := htmlAbstractJoined doc
        source := "crawl" } := by
  unfold extract_from_html_tree
  rw [if_pos ⟨hb, ha⟩]

/-- C5 witness: the abstract-group div with a 30-character text and no
paragraph content anywhere: the abstract is that text and full_text
equals it verbatim. -/
theorem c5_witness :
    htmlAbstractJoined wdoc = "Foo bar baz qux quux corge gra" ∧
    extract_from_html_tree wdoc =
      { abstract := htmlAbstractJoined wdoc
        full_text := htmlAbstractJoined wdoc
        source := "crawl" } :=
  ⟨by decide, c5_html_promotion_verbatim wdoc rfl (by decide)⟩

/-- fetch_article with prefer_api reduces to the API attempt with crawl
fallback. -/
theorem fetch_article_true (net : String × String → Option FetchedArticle)
    (crawlNet : String → Option FetchedArticle) (i : RSSItem) (k : String) :
    fetch_article net crawlNet i true k =
      (match fetch_via_api net i k with
       | some r => some r
       | none => fetch_via_crawl crawlNet i) := rfl

/-- fetch_article without prefer_api reduces to the crawl attempt. -/
theorem fetch_article_false (net : String × String → Option FetchedArticle)
    (crawlNet : String → Option FetchedArticle) (i : RSSItem) (k : String) :
    fetch_article net crawlNet i false k = fetch_via_crawl crawlNet i := rfl

/-- C6: fetch orchestration.  With prefer_api, an API success is returned
as is, and an API failure (in particular an empty stripped key or a
missing identifier) falls through to the crawl channel.  Without
prefer_api, the result is the crawl result whatever the API oracle would
have answered (the API channel is never invoked), and a crawl failure is
the overall failure. -/
theorem c6_fetch_orchestration (net net2 : String × String → Option FetchedArticle)
    (crawlNet : String → Option FetchedArticle) (i : RSSItem) (k : String) :
    (∀ r, fetch_via_api net i k = some r → fetch_article net crawlNet i true k = some r) ∧
    (fetch_via_api net i k = none →
      fetch_article net crawlNet i true k = fetch_via_crawl crawlNet i) ∧
    (pyStrip k = "" →
      fetch_article net crawlNet i true k = fetch_via_crawl crawlNet i) ∧
    (article_id i = none →
      fetch_article net crawlNet i true k = fetch_via_crawl crawlNet i) ∧
    (fetch_article net crawlNet i false k = fetch_via_crawl crawlNet i) ∧
    (fetch_article net crawlNet i false k = fetch_article net2 crawlNet i false k) ∧
    (fetch_via_crawl crawlNet i = none → fetch_article net crawlNet i false k = none) := by
  refine ⟨?_, ?_, ?_, ?_, ?_, ?_, ?_⟩
  · intro r hr
    rw [fetch_article_true, hr]
  · intro hnone
    rw [fetch_article_true, hnone]
  · intro hk
    have hnone : fetch_via_api net i k = none := by
      unfold fetch_via_api
      rw [if_pos hk]
    rw [fetch_article_true, hnone]
  · intro hid
    have hnone : fetch_via_api net i k = none := by
      unfold fetch_via_api
      by_cases hk : pyStrip k = ""
      · rw [if_pos hk]
      · rw [if_neg hk, hid]
    rw [fetch_article_true, hnone]
  · exact fetch_article_false net crawlNet i k
  · rw [fetch_article_false, fetch_article_false]
  · intro hc
    rw [fetch_article_false]
    exact hc

/-- C6 witness: with prefer_api and a failing API oracle the crawl result
is returned; without prefer_api a successful API oracle is ignored and the
crawl failure is the overall failure. -/
theorem c6_witness :
    fetch_article netNone crawlSome itemA true "key" = fetch_via_crawl crawlSome itemA ∧
    fetch_article netSome crawlNone itemA false "key" = none :=
  ⟨(c6_fetch_orchestration netNone netNone crawlSome itemA "key").2.1 rfl,
   (c6_fetch_orchestration netSome netNone crawlNone itemA "key").2.2.2.2.2.2 rfl⟩

/-- C7 counterexample: a document with three qualifying abstract elements
followed by a qualifying description element; the kept candidates are the
description followed by the first two abstracts (two per-name passes),
not the first 3 qualifying candidates in document order. -/
theorem c7_counterexample :
    xmlAbstractParts docMix = [strRep 'd' 21, strRep 'a' 21, strRep 'b' 21] ∧
    (dedupKeepFirst (xmlDocOrderCandidates docMix)).take 3 =
      [strRep 'a' 21, strRep 'b' 21, strRep 'c' 21] ∧
    xmlAbstractParts docMix ≠ (dedupKeepFirst (xmlDocOrderCandidates docMix)).take 3 :=
  ⟨by decide, by decide, by decide⟩

/-- C7 as amended: in both structured strategies the kept abstract list is
exactly the keep-first deduplication of the qualifying candidates in code
order (all description elements in document order, then all abstract
elements in document order), capped at the first 3; when all qualifying
candidates are abstract elements that order is document order, and with 5
distinct qualifying abstract elements exactly the first 3 are kept. -/
theorem c7_amended_cap_dedup (root : XElement) :
    xmlAbstractParts root = (dedupKeepFirst (xmlAbstractCandidates root)).take 3 ∧
    lxmlAbstractParts root = (dedupKeepFirst (lxmlAbstractCandidates root)).take 3 ∧
    xmlAbstractParts doc5 = [strRep 'a' 21, strRep 'b' 21, strRep 'c' 21] :=
  ⟨xmlAbstractParts_eq root, lxmlAbstractParts_eq root, by decide⟩

/-- C8: a DOI found in the link wins over anything in the description
(and the auxiliary identifier fields), and the returned token carries no
trailing period, comma or semicolon (the match is right-stripped of
them). -/
theorem c8_doi_link_preference_strip (e : FeedEntry) (d : String)
    (h : extract_doi_from_text e.link = some d) (hne : d ≠ "") :
    extract_doi e = some d ∧ endsWithAny d ['.', ',', ';'] = false := by
  constructor
  · unfold extract_doi
    dsimp only
    rw [h]
    dsimp only
    rw [show (d == "") = false from beq_eq_false_iff_ne.mpr hne]
    rfl
  · unfold extract_doi_from_text at h
    cases hd : doiSearch e.link with
    | none =>
      rw [hd] at h
      exact absurd h (by simp)
    | some g =>
      rw [hd] at h
      simp only [Option.some.injEq] at h
      rw [← h]
      exact pyRstrip_no_trailing g _

/-- C8 witness: a feed entry whose link carries one DOI followed by
trailing punctuation and whose description carries a different DOI; the
link DOI is returned, with no trailing punctuation. -/
theorem c8_witness :
    extract_doi entryW = some "10.1016/j.cell.2024.001" ∧
    endsWithAny "10.1016/j.cell.2024.001" ['.', ',', ';'] = false :=
  c8_doi_link_preference_strip entryW "10.1016/j.cell.2024.001" (by decide) (by decide)

/-- C9: dedupe_by_link keys on the link field: the output links are
pairwise distinct, every output item occurs in the input, every input
link is represented, the head of the list is always kept and later items
with its link are dropped, and a two-item list with equal links collapses
to its first item. -/
theorem c9_dedupe_by_link_spec (items : List RSSItem) (x y : RSSItem) :
    ((dedupe_by_link items).map RSSItem.link).Nodup ∧
    (∀ z ∈ dedupe_by_link items, z ∈ items) ∧
    (∀ z ∈ items, ∃ w ∈ dedupe_by_link items, w.link = z.link) ∧
    (∀ (a : RSSItem) (rest : List RSSItem),
      dedupe_by_link (a :: rest) =
        a :: dedupe_by_link (rest.filter (fun b => b.link != a.link))) ∧
    (y.link = x.link → dedupe_by_link [x, y] = [x]) := by
  refine ⟨dedupeAux_nodup items [], fun z hz => dedupeAux_mem_sub items [] z hz,
    fun z hz => dedupeAux_cover items [] z hz rfl, ?_, ?_⟩
  · intro a rest
    show dedupeAux (a :: rest) []
        = a :: dedupeAux (rest.filter fun b => b.link != a.link) []
    rw [show dedupeAux (a :: rest) [] = a :: dedupeAux rest [a.link] from by
      simp [dedupeAux, memStr]]
    refine congrArg (a :: ·) ?_
    rw [dedupeAux_filter rest [a.link] a.link (by simp [memStr])]
    exact dedupeAux_drop (rest.filter fun b => b.link != a.link) [] a.link
      (fun z hz => by simpa [bne] using List.of_mem_filter hz)
  · intro hxy
    show dedupeAux [x, y] [] = [x]
    simp [dedupeAux, memStr, hxy]

/-- C9 witness: two items with identical link collapse to the first. -/
theorem c9_witness : dedupe_by_link [itemA, itemB] = [itemA] :=
  (c9_dedupe_by_link_spec [itemA, itemB] itemA itemB).2.2.2.2 rfl

/-- C10: every RSSItem produced by feed-content parsing has a non-empty
link, and entries whose stripped link is empty are skipped: the output
has exactly one item per entry with a truthy stripped link. -/
theorem c10_parse_feed_nonempty_links (entries : List FeedEntry) :
    (∀ it ∈ parse_feed_content entries, it.link ≠ "") ∧
    (parse_feed_content entries).length
      = (entries.filter (fun e => pyStrip e.link != "")).length := by
  induction entries with
  | nil =>
    exact ⟨fun it h => absurd h (by simp [parse_feed_content]), by simp [parse_feed_content]⟩
  | cons e rest ih =>
    cases he : pyStrip e.link == "" with
    | true =>
      have hpp : parse_feed_content (e :: rest) = parse_feed_content rest := by
        simp [parse_feed_content, he]
      have hff : (e :: rest).filter (fun e2 => pyStrip e2.link != "")
          = rest.filter (fun e2 => pyStrip e2.link != "") := by
        simp [List.filter_cons, bne, he]
      rw [hpp, hff]
      exact ih
    | false =>
      have hpp : parse_feed_content (e :: rest)
          = mkRSSItem e :: parse_feed_content rest := by
        simp [parse_feed_content, he]
      have hff : (e :: rest).filter (fun e2 => pyStrip e2.link != "")
          = e :: rest.filter (fun e2 => pyStrip e2.link != "") := by
        simp [List.filter_cons, bne, he]
      constructor
      · intro it hit
        rw [hpp] at hit
        rcases List.mem_cons.mp hit with rfl | hit2
        · exact (show pyStrip e.link ≠ "" from ne_of_beq_false he)
        · exact ih.1 it hit2
      · rw [hpp, hff]
        simp only [List.length_cons, ih.2]

/-- C10 witness: of two entries, one with a whitespace-only link, only
the entry with a truthy link yields an item, and its link is
non-empty. -/
theorem c10_witness :
    (mkRSSItem entryW).link ≠ "" ∧ (parse_feed_content [entryNoLink, entryW]).length = 1 :=
  ⟨(c10_parse_feed_nonempty_links [entryNoLink, entryW]).1 (mkRSSItem entryW) (by decide),
   by decide⟩
